import Mathlib

/-!
Shallow embedding of the Simon game engine (`Model` class, model.cpp /
model.h) of henrika2/assignment6.

The C++ `Model` owns three fields: `m_currentRound : int`,
`m_sequence : QVector<int>` (entries 0 = Red, 1 = Blue) and
`m_userIndex : int`.  Its operations emit Qt signals; here each operation
returns the new state together with the ordered list of signals it emits.
The call `std::rand() % 2` in `addRandomMove` is modelled by an explicit
random input `r : Nat` supplied to every operation that may reach
`addRandomMove`; the code takes `r % 2` exactly as the source does.
-/

namespace Simon

/-- A Qt signal emitted by the `Model` class, with its payload.  The five
constructors correspond to the five signals declared in model.h:
`totalRoundUpdated(int)`, `totalAndCurrentRound(int,int)`,
`roundStarted(int)`, `flashButton(int,int,int)` and `lose()`. -/
inductive Signal where
  | totalRoundUpdated (totalRounds : Nat)
  | totalAndCurrentRound (current total : Nat)
  | roundStarted (currentRound : Nat)
  | flashButton (button current total : Nat)
  | lose
deriving DecidableEq

/-- The state of the C++ `Model` class: current round counter, sequence of
moves (0 = Red, 1 = Blue), and the index of the next move the player must
match. -/
structure Model where
  m_currentRound : Nat
  m_sequence : List Nat
  m_userIndex : Nat
deriving DecidableEq

/-- The state set up by the `Model` constructor: `m_currentRound = 0`,
`m_userIndex = 0`, empty sequence. -/
def initModel : Model := { m_currentRound := 0, m_sequence := [], m_userIndex := 0 }

/-- Embedding of `Model::addRandomMove`: append `r % 2` (the source computes
`std::rand() % 2`) to the sequence. -/
def addRandomMove (m : Model) (r : Nat) : Model :=
  { m with m_sequence := m.m_sequence ++ [r % 2] }

/-- Embedding of `Model::playSequence`: for each index `i` below the sequence
size, in order, emit `flashButton(m_sequence.at(i), i, m_currentRound)`. -/
def playSequence (m : Model) : List Signal :=
  (List.range m.m_sequence.length).map fun i =>
    Signal.flashButton (m.m_sequence.getD i 0) i m.m_currentRound

/-- Embedding of `Model::addRound`: increment the round counter, reset the
user index, append one random move, then emit `totalRoundUpdated`,
`totalAndCurrentRound`, `roundStarted`, followed by the flashes of
`playSequence`. -/
def addRound (m : Model) (r : Nat) : Model × List Signal :=
  let m1 : Model := { m with m_currentRound := m.m_currentRound + 1, m_userIndex := 0 }
  let m2 : Model := addRandomMove m1 r
  (m2,
    [Signal.totalRoundUpdated m2.m_currentRound,
     Signal.totalAndCurrentRound m2.m_userIndex m2.m_currentRound,
     Signal.roundStarted m2.m_currentRound] ++ playSequence m2)

/-- Embedding of `Model::startGame`: reset round counter, sequence and user
index, then perform `addRound`. -/
def startGame (m : Model) (r : Nat) : Model × List Signal :=
  addRound { m with m_currentRound := 0, m_sequence := [], m_userIndex := 0 } r

/-- Embedding of `Model::checkIsTrueButton`: convert the pressed button to
0 (Red) or 1 (Blue); if `m_userIndex < m_sequence.size()` and
`m_sequence[m_userIndex] == button`, increment the user index and emit
`totalAndCurrentRound`, then perform `addRound` when the sequence is fully
reproduced; otherwise emit `lose`. -/
def checkIsTrueButton (m : Model) (isBlue : Bool) (r : Nat) : Model × List Signal :=
  let button : Nat := if isBlue then 1 else 0
  if m.m_sequence.get? m.m_userIndex = some button then
    let m1 : Model := { m with m_userIndex := m.m_userIndex + 1 }
    if m1.m_userIndex = m1.m_sequence.length then
      let p := addRound m1 r
      (p.1, Signal.totalAndCurrentRound m1.m_userIndex m1.m_currentRound :: p.2)
    else
      (m1, [Signal.totalAndCurrentRound m1.m_userIndex m1.m_currentRound])
  else
    (m, [Signal.lose])

/-- An externally triggered operation on the engine, carrying the random
value its (possible) call to `addRandomMove` consumes. -/
inductive Op where
  | start (r : Nat)
  | submit (isBlue : Bool) (r : Nat)
deriving DecidableEq

/-- Apply one operation to a state, returning the new state and the emitted
signals. -/
def applyOp (m : Model) : Op → Model × List Signal
  | Op.start r => startGame m r
  | Op.submit b r => checkIsTrueButton m b r

/-- Run a list of operations from a state, concatenating the emitted
signals in order. -/
def runOps (m : Model) : List Op → Model × List Signal
  | [] => (m, [])
  | op :: rest =>
    let p := applyOp m op
    let q := runOps p.1 rest
    (q.1, p.2 ++ q.2)

/-- A state is reachable when some list of operations produces it from the
constructor state. -/
def Reachable (m : Model) : Prop := ∃ ops : List Op, (runOps initModel ops).1 = m

/-! Helper lemmas characterising the operations branch by branch. -/

lemma addRound_fst (m : Model) (r : Nat) :
    (addRound m r).1 = ⟨m.m_currentRound + 1, m.m_sequence ++ [r % 2], 0⟩ := rfl

lemma startGame_fst (m : Model) (r : Nat) :
    (startGame m r).1 = ⟨1, [r % 2], 0⟩ := rfl

lemma addRound_snd (m : Model) (r : Nat) :
    (addRound m r).2 =
      [Signal.totalRoundUpdated (m.m_currentRound + 1),
       Signal.totalAndCurrentRound 0 (m.m_currentRound + 1),
       Signal.roundStarted (m.m_currentRound + 1)] ++
      (List.range (m.m_sequence.length + 1)).map (fun i =>
        Signal.flashButton ((m.m_sequence ++ [r % 2]).getD i 0) i (m.m_currentRound + 1)) := by
  simp [addRound, addRandomMove, playSequence]

lemma check_eq_lose (m : Model) (b : Bool) (r : Nat)
    (hg : m.m_sequence.get? m.m_userIndex ≠ some (if b then 1 else 0)) :
    checkIsTrueButton m b r = (m, [Signal.lose]) := by
  simp only [checkIsTrueButton, if_neg hg]

lemma check_eq_step (m : Model) (b : Bool) (r : Nat)
    (hg : m.m_sequence.get? m.m_userIndex = some (if b then 1 else 0))
    (hne : m.m_userIndex + 1 ≠ m.m_sequence.length) :
    checkIsTrueButton m b r =
      ({ m with m_userIndex := m.m_userIndex + 1 },
       [Signal.totalAndCurrentRound (m.m_userIndex + 1) m.m_currentRound]) := by
  simp only [checkIsTrueButton, if_pos hg, if_neg hne]

lemma check_eq_complete (m : Model) (b : Bool) (r : Nat)
    (hg : m.m_sequence.get? m.m_userIndex = some (if b then 1 else 0))
    (heq : m.m_userIndex + 1 = m.m_sequence.length) :
    checkIsTrueButton m b r =
      ((addRound m r).1,
       Signal.totalAndCurrentRound (m.m_userIndex + 1) m.m_currentRound ::
         (addRound m r).2) := by
  simp only [checkIsTrueButton, if_pos hg, if_pos heq]
  rfl

/-- The state invariant: sequence length tracks the round counter, the user
index stays within the sequence, and every stored move is 0 or 1. -/
def Inv (m : Model) : Prop :=
  m.m_sequence.length = m.m_currentRound ∧
  m.m_userIndex ≤ m.m_sequence.length ∧
  ∀ x ∈ m.m_sequence, x = 0 ∨ x = 1

lemma inv_initModel : Inv initModel := by
  refine ⟨rfl, Nat.le_refl 0, ?_⟩
  intro x hx
  simp [initModel] at hx

lemma inv_applyOp (m : Model) (op : Op) (h : Inv m) : Inv (applyOp m op).1 := by
  obtain ⟨hlen, hle, hmem⟩ := h
  cases op with
  | start r =>
    show Inv (startGame m r).1
    rw [startGame_fst]
    refine ⟨rfl, Nat.zero_le _, ?_⟩
    intro x hx
    rw [List.mem_singleton] at hx
    subst hx
    exact Nat.mod_two_eq_zero_or_one r
  | submit b r =>
    show Inv (checkIsTrueButton m b r).1
    by_cases hg : m.m_sequence.get? m.m_userIndex = some (if b then 1 else 0)
    · by_cases hc : m.m_userIndex + 1 = m.m_sequence.length
      · rw [check_eq_complete m b r hg hc, addRound_fst]
        refine ⟨by simp [hlen], Nat.zero_le _, ?_⟩
        intro x hx
        rcases List.mem_append.mp hx with hx | hx
        · exact hmem x hx
        · rw [List.mem_singleton] at hx
          subst hx
          exact Nat.mod_two_eq_zero_or_one r
      · rw [check_eq_step m b r hg hc]
        refine ⟨hlen, ?_, hmem⟩
        have hlt : m.m_userIndex < m.m_sequence.length := (List.get?_eq_some.mp hg).1
        exact hlt
    · rw [check_eq_lose m b r hg]
      exact ⟨hlen, hle, hmem⟩

/-- The property that every flash signal in a list carries a button value of
0 or 1. -/
def flashesOk (sigs : List Signal) : Prop :=
  ∀ b i t : Nat, Signal.flashButton b i t ∈ sigs → b = 0 ∨ b = 1

lemma flashesOk_append {s1 s2 : List Signal} (h1 : flashesOk s1) (h2 : flashesOk s2) :
    flashesOk (s1 ++ s2) := by
  intro b i t hmem
  rcases List.mem_append.mp hmem with hmem | hmem
  · exact h1 b i t hmem
  · exact h2 b i t hmem

lemma playSequence_flashesOk (m : Model) (h : ∀ x ∈ m.m_sequence, x = 0 ∨ x = 1) :
    flashesOk (playSequence m) := by
  intro b i t hmem
  simp only [playSequence, List.mem_map, List.mem_range] at hmem
  obtain ⟨j, hj, hEq⟩ := hmem
  have hb : m.m_sequence.getD j 0 = b := by
    injection hEq
  rw [List.getD_eq_getElem m.m_sequence 0 hj] at hb
  subst hb
  exact h _ (List.getElem_mem hj)

lemma addRound_flashesOk (m : Model) (r : Nat)
    (h : ∀ x ∈ m.m_sequence, x = 0 ∨ x = 1) :
    flashesOk (addRound m r).2 := by
  intro b i t hmem
  simp only [addRound, addRandomMove] at hmem
  rcases List.mem_append.mp hmem with hmem | hmem
  · simp at hmem
  · refine playSequence_flashesOk _ ?_ b i t hmem
    intro x hx
    rcases List.mem_append.mp hx with hx | hx
    · exact h x hx
    · rw [List.mem_singleton] at hx
      subst hx
      exact Nat.mod_two_eq_zero_or_one r

lemma applyOp_flashesOk (m : Model) (op : Op)
    (h : ∀ x ∈ m.m_sequence, x = 0 ∨ x = 1) :
    flashesOk (applyOp m op).2 := by
  cases op with
  | start r =>
    show flashesOk (startGame m r).2
    refine addRound_flashesOk _ r ?_
    intro x hx
    simp at hx
  | submit b r =>
    show flashesOk (checkIsTrueButton m b r).2
    by_cases hg : m.m_sequence.get? m.m_userIndex = some (if b then 1 else 0)
    · by_cases hc : m.m_userIndex + 1 = m.m_sequence.length
      · rw [check_eq_complete m b r hg hc]
        intro b' i t hmem
        rw [List.mem_cons] at hmem
        rcases hmem with hmem | hmem
        · cases hmem
        · exact addRound_flashesOk m r h b' i t hmem
      · rw [check_eq_step m b r hg hc]
        intro b' i t hmem
        rw [List.mem_singleton] at hmem
        cases hmem
    · rw [check_eq_lose m b r hg]
      intro b' i t hmem
      rw [List.mem_singleton] at hmem
      cases hmem

lemma runOps_inv_flash (ops : List Op) :
    ∀ m : Model, Inv m → Inv (runOps m ops).1 ∧ flashesOk (runOps m ops).2 := by
  induction ops with
  | nil =>
    intro m h
    refine ⟨h, ?_⟩
    intro b i t hmem
    simp [runOps] at hmem
  | cons op rest ih =>
    intro m h
    have h1 : Inv (applyOp m op).1 := inv_applyOp m op h
    have h2 : flashesOk (applyOp m op).2 := applyOp_flashesOk m op h.2.2
    obtain ⟨h3, h4⟩ := ih (applyOp m op).1 h1
    exact ⟨h3, flashesOk_append h2 h4⟩

lemma reachable_inv (m : Model) (h : Reachable m) : Inv m := by
  obtain ⟨ops, hops⟩ := h
  rw [← hops]
  exact (runOps_inv_flash ops initModel inv_initModel).1

lemma getD_get? (l : List Nat) (n : Nat) (h : n < l.length) :
    l.get? n = some (l.getD n 0) := by
  rw [List.getD_eq_getElem l 0 h]
  exact List.get?_eq_get h

lemma not_match_get? (m : Model) (b : Bool)
    (h : ¬ (m.m_userIndex < m.m_sequence.length ∧
            m.m_sequence.getD m.m_userIndex 0 = if b then 1 else 0)) :
    m.m_sequence.get? m.m_userIndex ≠ some (if b then 1 else 0) := by
  intro hg
  by_cases hlt : m.m_userIndex < m.m_sequence.length
  · refine h ⟨hlt, ?_⟩
    have hsome := getD_get? m.m_sequence m.m_userIndex hlt
    rw [hsome] at hg
    exact Option.some.inj hg
  · have hnone : m.m_sequence.get? m.m_userIndex = none := by
      rw [List.get?_eq_none]
      omega
    rw [hnone] at hg
    cases hg

/-! Claim theorems. -/

/-- C1: `Model::addRound` increments the round counter by 1, resets the user
progress to 0, appends exactly one move to the sequence, then emits, in
order, `totalRoundUpdated round`, `totalAndCurrentRound (0, round)`,
`roundStarted round`, followed by one `flashButton (move_at_i, i, round)`
for each index `i` of the sequence in increasing order; and a single
`startGame` emits exactly `totalRoundUpdated 1`, `totalAndCurrentRound 0 1`,
`roundStarted 1` and one `flashButton` with sequence index 0 and round
total 1. -/
theorem addRound_effects_and_signal_order (m : Model) (r : Nat) :
    (addRound m r).1.m_currentRound = m.m_currentRound + 1 ∧
    (addRound m r).1.m_userIndex = 0 ∧
    (addRound m r).1.m_sequence = m.m_sequence ++ [r % 2] ∧
    (addRound m r).2 =
      [Signal.totalRoundUpdated (m.m_currentRound + 1),
       Signal.totalAndCurrentRound 0 (m.m_currentRound + 1),
       Signal.roundStarted (m.m_currentRound + 1)] ++
      (List.range (m.m_sequence.length + 1)).map (fun i =>
        Signal.flashButton ((m.m_sequence ++ [r % 2]).getD i 0) i (m.m_currentRound + 1)) ∧
    (startGame m r).2 =
      [Signal.totalRoundUpdated 1, Signal.totalAndCurrentRound 0 1,
       Signal.roundStarted 1, Signal.flashButton (r % 2) 0 1] := by
  refine ⟨rfl, rfl, rfl, addRound_snd m r, ?_⟩
  show (addRound { m_currentRound := 0, m_sequence := [], m_userIndex := 0 } r).2 = _
  rw [addRound_snd]
  simp [List.range_succ]

/-- C2: when the user index is in bounds and the stored move matches the
pressed button (0 for Red when `isBlue = false`, 1 for Blue when
`isBlue = true`), `Model::checkIsTrueButton` increments the user index,
emits `totalAndCurrentRound (new progress, round)`, and then performs
`addRound` if and only if the new progress equals the sequence length. -/
theorem checkIsTrueButton_correct_move (m : Model) (b : Bool) (r : Nat)
    (h1 : m.m_userIndex < m.m_sequence.length)
    (h2 : m.m_sequence.getD m.m_userIndex 0 = if b then 1 else 0) :
    checkIsTrueButton m b r =
      if m.m_userIndex + 1 = m.m_sequence.length then
        ((addRound m r).1,
         Signal.totalAndCurrentRound (m.m_userIndex + 1) m.m_currentRound ::
           (addRound m r).2)
      else
        ({ m with m_userIndex := m.m_userIndex + 1 },
         [Signal.totalAndCurrentRound (m.m_userIndex + 1) m.m_currentRound]) := by
  have hg : m.m_sequence.get? m.m_userIndex = some (if b then 1 else 0) := by
    rw [← h2]
    exact getD_get? m.m_sequence m.m_userIndex h1
  by_cases hc : m.m_userIndex + 1 = m.m_sequence.length
  · rw [check_eq_complete m b r hg hc, if_pos hc]
  · rw [check_eq_step m b r hg hc, if_neg hc]

/-- C2 witness: with round 1, sequence `[0]` (one Red move) and progress 0,
pressing Red completes the sequence, so the engine emits
`totalAndCurrentRound 1 1` and then begins round 2. -/
theorem checkIsTrueButton_correct_move_witness :
    ((0 : Nat) < ([0] : List Nat).length ∧
     ([0] : List Nat).getD 0 0 = (if false then 1 else 0)) ∧
    checkIsTrueButton ⟨1, [0], 0⟩ false 1 =
      ((addRound ⟨1, [0], 0⟩ 1).1,
       Signal.totalAndCurrentRound 1 1 :: (addRound ⟨1, [0], 0⟩ 1).2) := by
  refine ⟨⟨by decide, by decide⟩, ?_⟩
  have h := checkIsTrueButton_correct_move ⟨1, [0], 0⟩ false 1 (by decide) (by decide)
  rw [h]
  rfl

/-- C3: when the pressed move mismatches the stored move at the user index,
or the user index does not index into the sequence (including an empty
sequence before any `startGame`), `Model::checkIsTrueButton` emits exactly
the `lose` signal and leaves the whole state unchanged. -/
theorem checkIsTrueButton_wrong_move (m : Model) (b : Bool) (r : Nat)
    (h : ¬ (m.m_userIndex < m.m_sequence.length ∧
            m.m_sequence.getD m.m_userIndex 0 = if b then 1 else 0)) :
    checkIsTrueButton m b r = (m, [Signal.lose]) :=
  check_eq_lose m b r (not_match_get? m b h)

/-- C3 witness: pressing a button in the constructor state (empty sequence,
before any `startGame`) emits exactly `lose` and changes nothing. -/
theorem checkIsTrueButton_wrong_move_witness :
    (¬ ((0 : Nat) < ([] : List Nat).length ∧
        ([] : List Nat).getD 0 0 = (if false then 1 else 0))) ∧
    checkIsTrueButton initModel false 1 = (initModel, [Signal.lose]) :=
  ⟨by decide, checkIsTrueButton_wrong_move initModel false 1 (by decide)⟩

/-- C4 counterexample: after `startGame` (with random value 0 the sequence
is `[0]`), pressing Blue emits `lose`; yet the immediately following
`checkIsTrueButton false` call — with no intervening `startGame` — emits
`totalAndCurrentRound 1 1` and `roundStarted 2`, refuting the claim that no
further progress or round-started notification occurs after a loss. -/
theorem lost_state_not_terminal_cex :
    (checkIsTrueButton (startGame initModel 0).1 true 0).2 = [Signal.lose] ∧
    Signal.totalAndCurrentRound 1 1 ∈
      (checkIsTrueButton (checkIsTrueButton (startGame initModel 0).1 true 0).1 false 0).2 ∧
    Signal.roundStarted 2 ∈
      (checkIsTrueButton (checkIsTrueButton (startGame initModel 0).1 true 0).1 false 0).2 := by
  decide

/-- C4 amended: a `checkIsTrueButton` call that emits `lose` leaves the
state unchanged, so subsequent `checkIsTrueButton` calls behave exactly as
from the pre-loss state — in particular a repeated mismatch emits `lose`
again, but a correct press still emits progress and round notifications;
the engine itself records no terminal LOST state. -/
theorem lose_leaves_state_unchanged (m : Model) (b : Bool) (r : Nat)
    (h : (checkIsTrueButton m b r).2 = [Signal.lose]) :
    (checkIsTrueButton m b r).1 = m ∧
    ∀ (b' : Bool) (r' : Nat),
      checkIsTrueButton (checkIsTrueButton m b r).1 b' r' = checkIsTrueButton m b' r' := by
  have hst : (checkIsTrueButton m b r).1 = m := by
    by_cases hg : m.m_sequence.get? m.m_userIndex = some (if b then 1 else 0)
    · by_cases hc : m.m_userIndex + 1 = m.m_sequence.length
      · rw [check_eq_complete m b r hg hc] at h
        simp at h
      · rw [check_eq_step m b r hg hc] at h
        simp at h
    · rw [check_eq_lose m b r hg]
  refine ⟨hst, ?_⟩
  intro b' r'
  rw [hst]

/-- C4 witness: in the constructor state any press loses; the state is
unchanged and a following press behaves as from the original state. -/
theorem lose_leaves_state_unchanged_witness :
    (checkIsTrueButton initModel true 0).2 = [Signal.lose] ∧
    (checkIsTrueButton initModel true 0).1 = initModel ∧
    checkIsTrueButton (checkIsTrueButton initModel true 0).1 false 1 =
      checkIsTrueButton initModel false 1 := by
  refine ⟨by decide, ?_, ?_⟩
  · exact (lose_leaves_state_unchanged initModel true 0 (by decide)).1
  · exact (lose_leaves_state_unchanged initModel true 0 (by decide)).2 false 1

/-- C5: in every reachable state the sequence length equals the round
counter; each `addRound` increments the round by exactly 1 and appends
exactly one move, so the invariant is re-established after every
`addRound`. -/
theorem seq_length_eq_round (m : Model) (h : Reachable m) :
    m.m_sequence.length = m.m_currentRound ∧
    ∀ r : Nat,
      (addRound m r).1.m_currentRound = m.m_currentRound + 1 ∧
      (addRound m r).1.m_sequence = m.m_sequence ++ [r % 2] ∧
      (addRound m r).1.m_sequence.length = (addRound m r).1.m_currentRound := by
  have hinv := reachable_inv m h
  refine ⟨hinv.1, ?_⟩
  intro r
  rw [addRound_fst]
  refine ⟨rfl, rfl, ?_⟩
  simp [hinv.1]

/-- C5 witness: the state after one `startGame` is reachable and satisfies
the invariant. -/
theorem seq_length_eq_round_witness :
    Reachable (startGame initModel 0).1 ∧
    (startGame initModel 0).1.m_sequence.length =
      (startGame initModel 0).1.m_currentRound :=
  ⟨⟨[Op.start 0], rfl⟩,
   (seq_length_eq_round (startGame initModel 0).1 ⟨[Op.start 0], rfl⟩).1⟩

/-- C6: in every reachable state the user progress never exceeds the
sequence length (and, the state being over `Nat`, is never negative). -/
theorem progress_le_sequence_length (m : Model) (h : Reachable m) :
    m.m_userIndex ≤ m.m_sequence.length :=
  (reachable_inv m h).2.1

/-- C6 witness: the bound holds at the reachable state after one
`startGame`. -/
theorem progress_le_sequence_length_witness :
    Reachable (startGame initModel 1).1 ∧
    (startGame initModel 1).1.m_userIndex ≤
      (startGame initModel 1).1.m_sequence.length :=
  ⟨⟨[Op.start 1], rfl⟩,
   progress_le_sequence_length (startGame initModel 1).1 ⟨[Op.start 1], rfl⟩⟩

/-- C7: `Model::startGame` from any state resets the round counter, the
sequence and the user index and then performs `addRound` on the reset
state, so afterwards the round is 1, the sequence has exactly one element
and the progress is 0; a second `startGame` produces exactly the state a
single call would, given the same random value. -/
theorem startGame_reset_idempotent (m : Model) (r1 r2 : Nat) :
    (startGame m r1).1.m_currentRound = 1 ∧
    (startGame m r1).1.m_sequence = [r1 % 2] ∧
    (startGame m r1).1.m_userIndex = 0 ∧
    startGame m r1 =
      addRound { m_currentRound := 0, m_sequence := [], m_userIndex := 0 } r1 ∧
    startGame (startGame m r1).1 r2 = startGame m r2 :=
  ⟨rfl, rfl, rfl, rfl, rfl⟩

/-- C8: `Model::checkIsTrueButton` leaves the sequence and the round
counter unchanged unless the press correctly completes the sequence, in
which case its final state is exactly that of `addRound`; `addRound` only
appends a single move, and `startGame` clears the sequence before its
single append. -/
theorem sequence_immutable_within_round (m : Model) (b : Bool) (r : Nat) :
    (¬ (m.m_userIndex < m.m_sequence.length ∧
        m.m_sequence.getD m.m_userIndex 0 = (if b then 1 else 0) ∧
        m.m_userIndex + 1 = m.m_sequence.length) →
      (checkIsTrueButton m b r).1.m_sequence = m.m_sequence ∧
      (checkIsTrueButton m b r).1.m_currentRound = m.m_currentRound) ∧
    ((m.m_userIndex < m.m_sequence.length ∧
      m.m_sequence.getD m.m_userIndex 0 = (if b then 1 else 0) ∧
      m.m_userIndex + 1 = m.m_sequence.length) →
      (checkIsTrueButton m b r).1 = (addRound m r).1) ∧
    (addRound m r).1.m_sequence = m.m_sequence ++ [r % 2] ∧
    (startGame m r).1.m_sequence = [r % 2] := by
  refine ⟨?_, ?_, rfl, rfl⟩
  · intro hno
    by_cases hok : m.m_userIndex < m.m_sequence.length ∧
        m.m_sequence.getD m.m_userIndex 0 = (if b then 1 else 0)
    · have hne : m.m_userIndex + 1 ≠ m.m_sequence.length := fun hc =>
        hno ⟨hok.1, hok.2, hc⟩
      have hg : m.m_sequence.get? m.m_userIndex = some (if b then 1 else 0) := by
        rw [← hok.2]
        exact getD_get? m.m_sequence m.m_userIndex hok.1
      rw [check_eq_step m b r hg hne]
      exact ⟨rfl, rfl⟩
    · rw [check_eq_lose m b r (not_match_get? m b hok)]
      exact ⟨rfl, rfl⟩
  · intro hok
    have hg : m.m_sequence.get? m.m_userIndex = some (if b then 1 else 0) := by
      rw [← hok.2.1]
      exact getD_get? m.m_sequence m.m_userIndex hok.1
    rw [check_eq_complete m b r hg hok.2.2]

/-- C8 witness: a correct but incomplete press leaves sequence and round
unchanged; a completing press hands the state over to `addRound`. -/
theorem sequence_immutable_within_round_witness :
    (checkIsTrueButton ⟨2, [0, 1], 0⟩ false 0).1.m_sequence = [0, 1] ∧
    (checkIsTrueButton ⟨2, [0, 1], 0⟩ false 0).1.m_currentRound = 2 ∧
    (checkIsTrueButton ⟨1, [0], 0⟩ false 1).1 = (addRound ⟨1, [0], 0⟩ 1).1 := by
  refine ⟨?_, ?_, ?_⟩
  · exact ((sequence_immutable_within_round ⟨2, [0, 1], 0⟩ false 0).1 (by decide)).1
  · exact ((sequence_immutable_within_round ⟨2, [0, 1], 0⟩ false 0).1 (by decide)).2
  · exact (sequence_immutable_within_round ⟨1, [0], 0⟩ false 1).2.1 (by decide)

/-- C9: in every reachable state every stored move is 0 (Red) or 1 (Blue),
and every `flashButton` signal emitted over any run from the constructor
state carries a button payload of 0 or 1 — `addRandomMove` only ever
appends `r % 2`. -/
theorem sequence_moves_valid :
    (∀ m : Model, Reachable m → ∀ x ∈ m.m_sequence, x = 0 ∨ x = 1) ∧
    (∀ ops : List Op, ∀ b i t : Nat,
      Signal.flashButton b i t ∈ (runOps initModel ops).2 → b = 0 ∨ b = 1) := by
  constructor
  · intro m h
    exact (reachable_inv m h).2.2
  · intro ops b i t hmem
    exact (runOps_inv_flash ops initModel inv_initModel).2 b i t hmem

/-- C9 witness: after `startGame` with random value 1, the single stored
move 1 is a valid move, and the emitted flash carries button 1. -/
theorem sequence_moves_valid_witness :
    (Reachable (startGame initModel 1).1 ∧ ((1 : Nat) = 0 ∨ (1 : Nat) = 1)) ∧
    (Signal.flashButton 1 0 1 ∈ (runOps initModel [Op.start 1]).2 ∧
     ((1 : Nat) = 0 ∨ (1 : Nat) = 1)) :=
  ⟨⟨⟨[Op.start 1], rfl⟩,
    sequence_moves_valid.1 (startGame initModel 1).1 ⟨[Op.start 1], rfl⟩ 1 (by decide)⟩,
   ⟨by decide, sequence_moves_valid.2 [Op.start 1] 1 0 1 (by decide)⟩⟩

/-- C10: with the random source made an explicit input, the engine is
deterministic — applying equal operations (same kind, same button, same
random value) to equal states yields equal final states and identical
ordered signal lists. -/
theorem engine_deterministic (m1 m2 : Model) (op1 op2 : Op)
    (hm : m1 = m2) (hop : op1 = op2) :
    (applyOp m1 op1).1 = (applyOp m2 op2).1 ∧
    (applyOp m1 op1).2 = (applyOp m2 op2).2 := by
  subst hm
  subst hop
  exact ⟨rfl, rfl⟩

/-- C10 witness: determinism instantiated at the constructor state and a
concrete `startGame` operation. -/
theorem engine_deterministic_witness :
    (applyOp initModel (Op.start 3)).1 = (applyOp initModel (Op.start 3)).1 ∧
    (applyOp initModel (Op.start 3)).2 = (applyOp initModel (Op.start 3)).2 :=
  engine_deterministic initModel initModel (Op.start 3) (Op.start 3) rfl rfl

end Simon
